import Mathlib

/-!
Shallow embedding of the profile store, selection state machine, hosts
synthesizer, backup codec and third-party import adapter of
`src-tauri/src/storage.rs` from the hosts-switcher repository.

Modelling conventions:
* the on-disk `profiles/<id>.txt` files are a partial map
  `Contents : String → Option String`; `fs::write` is an overwriting
  update (`writeContent`) and the `path.exists()`-guarded read used by
  `apply_config_internal` / `list_profiles_internal` is `readProfile`,
  which yields the empty string for a missing file;
* `Uuid::new_v4()` is modelled as a deterministic fresh-id supply
  (`nextId` counter in `StoreState`, rendered by `freshUuid`);
* the `HashMap<String, String>` of the legacy backup field is modelled
  as an association list whose key list is `Nodup` (the map invariant);
  iteration order is the list order;
* `serde_json::Value` is the inductive `Json`; object field access
  `Value::get` is first-match lookup in the field list.
-/

structure ProfileMetadata where
  id : String
  name : String
  active : Bool
deriving Repr, DecidableEq

structure AppConfig where
  multi_select : Bool
  profiles : List ProfileMetadata
  active_profile_ids : List String
deriving Repr, DecidableEq

structure ProfileData where
  id : String
  name : String
  content : String
  active : Bool
deriving Repr, DecidableEq

def Contents : Type := String → Option String

def writeContent (c : Contents) (id content : String) : Contents :=
  fun x => if x = id then some content else c x

def readProfile (c : Contents) (id : String) : String :=
  (c id).getD ""

/-- Mutation of the first element satisfying a predicate, as performed by
`iter_mut().find(...)` followed by a field assignment in the source. -/
def modifyFirst (l : List ProfileMetadata) (pred : ProfileMetadata → Bool)
    (f : ProfileMetadata → ProfileMetadata) : List ProfileMetadata :=
  match l with
  | [] => []
  | p :: rest => if pred p then f p :: rest else p :: modifyFirst rest pred f

/-- Translation of `toggle_profile_active_internal` (storage.rs:294-322):
the multi-select branch flips the first profile with the given id; the
single-select branch records `was_active`, clears every `active` flag and
re-activates the target only when it was previously inactive. -/
def toggle_profile_active_internal (config : AppConfig) (id : String) : AppConfig :=
  if config.multi_select then
    { config with
      profiles := modifyFirst config.profiles (fun p => p.id == id)
        (fun p => { p with active := !p.active }) }
  else
    let was_active :=
      ((config.profiles.find? (fun p => p.id == id)).map (fun p => p.active)).getD false
    let cleared := config.profiles.map (fun p => { p with active := false })
    if !was_active then
      { config with
        profiles := modifyFirst cleared (fun p => p.id == id)
          (fun p => { p with active := true }) }
    else
      { config with profiles := cleared }

/-- The repair scan of `set_multi_select_internal`: walk the profile list
with a `found` flag, deactivating every active profile after the first
one encountered. -/
def dropLaterActive (found : Bool) : List ProfileMetadata → List ProfileMetadata
  | [] => []
  | p :: rest =>
    if p.active then
      if found then { p with active := false } :: dropLaterActive found rest
      else p :: dropLaterActive true rest
    else p :: dropLaterActive found rest

/-- Translation of `set_multi_select_internal` (storage.rs:330-349). -/
def set_multi_select_internal (config : AppConfig) (enable : Bool) : AppConfig :=
  let config2 := { config with multi_select := enable }
  if !enable then { config2 with profiles := dropLaterActive false config2.profiles }
  else config2

def countActive (l : List ProfileMetadata) : Nat :=
  (l.filter (fun p => p.active)).length

/-- Spec-shaped repair: keep `active = true` only on the first active
profile in stored order, deactivating every later one (spec section 4.3). -/
def keepFirstActive : List ProfileMetadata → List ProfileMetadata
  | [] => []
  | p :: rest =>
    if p.active then p :: rest.map (fun q => { q with active := false })
    else p :: keepFirstActive rest

/-- The accumulator loop of `apply_config_internal`, appending one section
per active profile in config order. -/
def renderActiveSections (contents : Contents) (acc : String) :
    List ProfileMetadata → String
  | [] => acc
  | p :: rest =>
    if p.active then
      renderActiveSections contents
        (acc ++ ("### Profile: " ++ p.name ++ " ###\n") ++ readProfile contents p.id ++ "\n\n")
        rest
    else
      renderActiveSections contents acc rest

/-- Translation of the merge of `apply_config_internal` (storage.rs:356-384):
fixed header, common section, then the active-profile sections; the final
`save_system_hosts` call hands this string to the external writer. -/
def apply_config_internal (config : AppConfig) (common_config : String)
    (contents : Contents) : String :=
  renderActiveSections contents
    ("# Generated by Hostly\n\n" ++ "### Common Config ###\n" ++ common_config ++ "\n\n")
    config.profiles

/-- Spec-shaped form of one rendered profile section. -/
def profileSection (contents : Contents) (p : ProfileMetadata) : String :=
  "### Profile: " ++ p.name ++ " ###\n" ++ readProfile contents p.id ++ "\n\n"

/-- Spec-shaped synthesizer (spec section 4.4): header, then the common
section, then one section per `active == true` profile in config order. -/
def synthesize_spec (config : AppConfig) (common_config : String)
    (contents : Contents) : String :=
  "# Generated by Hostly\n\n" ++ "### Common Config ###\n" ++ common_config ++ "\n\n" ++
    ((config.profiles.filter (fun p => p.active)).map (profileSection contents)).foldr
      (fun a b => a ++ b) ""

/-- The store as seen by the CRUD operations: the config document, the
per-profile content files, and the fresh-id supply standing in for
`Uuid::new_v4()`. -/
structure StoreState where
  config : AppConfig
  contents : Contents
  nextId : Nat

def freshUuid (n : Nat) : String := "uuid-" ++ toString n

/-- Translation of `create_profile_internal` (storage.rs:205-225): the
duplicate-name check runs before any write; otherwise a fresh id is
generated, the content file written, and the metadata appended with
`active = false`.  The untouched-on-error store is returned alongside the
result, mirroring that an early `Err` return leaves the disk unchanged. -/
def create_profile_internal (st : StoreState) (name : String)
    (content : Option String) : Except String String × StoreState :=
  if st.config.profiles.any (fun p => p.name == name) then
    (Except.error "环境名称已存在 / Profile name already exists", st)
  else
    let id := freshUuid st.nextId
    let initial_content := content.getD ""
    (Except.ok id,
      { config := { st.config with
          profiles := st.config.profiles ++ [{ id := id, name := name, active := false }] }
        contents := writeContent st.contents id initial_content
        nextId := st.nextId + 1 })

/-- Translation of `rename_profile_internal` (storage.rs:273-286): the
duplicate-name check (excluding the profile itself) runs first; an unknown
id then falls through the `position` lookup as a silent no-op. -/
def rename_profile_internal (config : AppConfig) (id new_name : String) :
    Except String AppConfig :=
  if config.profiles.any (fun p => p.name == new_name && p.id != id) then
    Except.error "环境名称已存在 / Profile name already exists"
  else
    Except.ok { config with
      profiles := modifyFirst config.profiles (fun p => p.id == id)
        (fun p => { p with name := new_name }) }

/-- Translation of `find_profile_id_by_name_internal` (storage.rs:462-465). -/
def find_profile_id_by_name_internal (config : AppConfig) (name : String) :
    Option String :=
  (config.profiles.find? (fun p => p.name == name)).map (fun p => p.id)

/-- Translation of `upsert_profile_internal` (storage.rs:472-479). -/
def upsert_profile_internal (st : StoreState) (name content : String) :
    Except String String × StoreState :=
  match find_profile_id_by_name_internal st.config name with
  | some id => (Except.ok id, { st with contents := writeContent st.contents id content })
  | none => create_profile_internal st name (some content)

/-- Translation of `list_profiles_internal` (storage.rs:175-198): one
`ProfileData` per config entry, content read with missing-file-as-empty. -/
def list_profiles_internal (config : AppConfig) (contents : Contents) :
    List ProfileData :=
  config.profiles.map (fun m =>
    { id := m.id, name := m.name, content := readProfile contents m.id, active := m.active })

/-- Translation of the `FullBackup` struct (storage.rs:386-394); the legacy
`HashMap<String, String>` field is an association list (see the header). -/
structure FullBackup where
  version : Int
  timestamp : String
  config : AppConfig
  profiles : Option (List ProfileData)
  profiles_content : Option (List (String × String))

/-- Sequential overwrites of content files, one per `(id, content)` pair. -/
def writeAll (c : Contents) (l : List (String × String)) : Contents :=
  l.foldl (fun acc pr => writeContent acc pr.1 pr.2) c

/-- Translation of `import_data_internal` (storage.rs:402-422): replace the
config wholesale, then write every content file from the sequence field if
present, else from the legacy mapping field if present. -/
def import_data_internal (st : StoreState) (backup : FullBackup) : StoreState :=
  let st2 := { st with config := backup.config }
  match backup.profiles with
  | some profiles =>
    { st2 with contents := writeAll st2.contents (profiles.map (fun p => (p.id, p.content))) }
  | none =>
    match backup.profiles_content with
    | some profiles_content => { st2 with contents := writeAll st2.contents profiles_content }
    | none => st2

/-- Translation of `export_data_internal` (storage.rs:429-442); the
`chrono` timestamp is a parameter. -/
def export_data_internal (config : AppConfig) (contents : Contents)
    (timestamp : String) : FullBackup :=
  { version := 2
    timestamp := timestamp
    config := config
    profiles := some (list_profiles_internal config contents)
    profiles_content := none }

/-- First-match lookup of an id in an association list of content pairs. -/
def lookupPairs (l : List (String × String)) (x : String) : Option String :=
  (l.find? (fun pr => pr.1 == x)).map (fun pr => pr.2)

/-- First-match lookup of an id among backup profile records. -/
def lookupRecords (l : List ProfileData) (x : String) : Option String :=
  (l.find? (fun p => p.id == x)).map (fun p => p.content)

inductive Json where
  | null : Json
  | bool (b : Bool) : Json
  | num (n : Int) : Json
  | str (s : String) : Json
  | arr (items : List Json) : Json
  | obj (fields : List (String × Json)) : Json
deriving Repr

def Json.getField (key : String) : List (String × Json) → Option Json
  | [] => none
  | f :: rest => if f.1 == key then some f.2 else Json.getField key rest

/-- `serde_json::Value::get` on an object, `None` on anything else. -/
def Json.get (j : Json) (key : String) : Option Json :=
  match j with
  | .obj fields => Json.getField key fields
  | _ => none

def Json.asStr : Json → Option String
  | .str s => some s
  | _ => none

def Json.asBool : Json → Option Bool
  | .bool b => some b
  | _ => none

def Json.asArray : Json → Option (List Json)
  | .arr items => some items
  | _ => none

/-- `item.get("title").and_then(as_str).unwrap_or("Unknown")`. -/
def itemTitle (item : Json) : String :=
  ((item.get "title").bind Json.asStr).getD "Unknown"

/-- The folder test of `parse_switchhosts_items_internal`: a boolean
`folder` field, else `type == "folder"` when a `type` field exists. -/
def itemFolder (item : Json) : Bool :=
  (((item.get "folder").bind Json.asBool).orElse
    (fun _ => (item.get "type").map (fun v => v.asStr == some "folder"))).getD false

/-- `item.get("content").and_then(as_str).unwrap_or("")`. -/
def itemContent (item : Json) : String :=
  ((item.get "content").bind Json.asStr).getD ""

theorem sizeOf_getField {key : String} :
    ∀ {fields : List (String × Json)} {v : Json},
      Json.getField key fields = some v → sizeOf v < sizeOf fields := by
  intro fields
  induction fields with
  | nil => intro v h; simp [Json.getField] at h
  | cons f rest ih =>
    intro v h
    simp only [Json.getField] at h
    by_cases hk : f.1 == key
    · rw [if_pos hk] at h
      obtain ⟨k, w⟩ := f
      cases h
      simp
      omega
    · rw [if_neg hk] at h
      have := ih h
      simp
      omega

theorem sizeOf_get {j : Json} {key : String} {v : Json}
    (h : j.get key = some v) : sizeOf v < sizeOf j := by
  cases j <;> simp [Json.get] at h
  case obj fields =>
    have := sizeOf_getField h
    simp
    omega

theorem sizeOf_children {item : Json} {key : String} {l : List Json}
    (h : (item.get key).bind Json.asArray = some l) : sizeOf l < sizeOf item := by
  cases hg : item.get key with
  | none => rw [hg] at h; simp [Option.bind] at h
  | some v =>
    rw [hg] at h
    simp [Option.bind] at h
    have hv := sizeOf_get hg
    cases v <;> simp [Json.asArray] at h
    case arr items =>
      cases h
      simp at hv
      omega

/-- Translation of `parse_switchhosts_items_internal` (storage.rs:557-575):
depth-first walk over `children`; folders recurse, every other node is
upserted by title and the count incremented; `?`-style error propagation. -/
def parse_switchhosts_items_internal (st : StoreState) (items : List Json)
    (count : Nat) : Except String (StoreState × Nat) :=
  match items with
  | [] => Except.ok (st, count)
  | item :: rest =>
    if itemFolder item then
      match hc : (item.get "children").bind Json.asArray with
      | some children =>
        match parse_switchhosts_items_internal st children count with
        | Except.error e => Except.error e
        | Except.ok sc => parse_switchhosts_items_internal sc.1 rest sc.2
      | none => parse_switchhosts_items_internal st rest count
    else
      match upsert_profile_internal st (itemTitle item) (itemContent item) with
      | (Except.error e, _) => Except.error e
      | (Except.ok _, st2) => parse_switchhosts_items_internal st2 rest (count + 1)
termination_by sizeOf items
decreasing_by
  all_goals first
    | (have h9 := sizeOf_children hc; simp; try omega)
    | (simp; try omega)

/-- Spec-shaped pre-order flattening of the legacy tree: the
`(title, content)` pairs of its non-folder leaves in depth-first order. -/
def legacyLeaves : List Json → List (String × String)
  | [] => []
  | item :: rest =>
    if itemFolder item then
      (match hc : (item.get "children").bind Json.asArray with
       | some children => legacyLeaves children
       | none => []) ++ legacyLeaves rest
    else
      (itemTitle item, itemContent item) :: legacyLeaves rest
termination_by l => sizeOf l
decreasing_by
  all_goals first
    | (have h9 := sizeOf_children hc; simp; try omega)
    | (simp; try omega)

/-- Folding a list of `(title, content)` leaves through the upsert entry
point, keeping only the resulting store. -/
def runUpserts (st : StoreState) (l : List (String × String)) : StoreState :=
  l.foldl (fun s tc => (upsert_profile_internal s tc.1 tc.2).2) st

/-! ### Helper lemmas -/

theorem renderActiveSections_eq (contents : Contents) :
    ∀ (l : List ProfileMetadata) (acc : String),
      renderActiveSections contents acc l
        = acc ++ ((l.filter (fun p => p.active)).map (profileSection contents)).foldr
            (fun a b => a ++ b) "" := by
  intro l
  induction l with
  | nil => intro acc; simp [renderActiveSections]
  | cons p rest ih =>
    intro acc
    by_cases hp : p.active
    · simp only [renderActiveSections, hp, if_pos, List.filter_cons, List.map_cons,
        List.foldr_cons, ih, profileSection]
      simp [String.append_assoc]
    · simp [renderActiveSections, hp, ih]

theorem countActive_cons (p : ProfileMetadata) (l : List ProfileMetadata) :
    countActive (p :: l) = (if p.active then 1 else 0) + countActive l := by
  by_cases hp : p.active <;> simp [countActive, List.filter_cons, hp, Nat.add_comm]

theorem countActive_deactivate (l : List ProfileMetadata) :
    countActive (l.map (fun p => { p with active := false })) = 0 := by
  induction l with
  | nil => simp [countActive]
  | cons p rest ih => simp [countActive_cons, ih]

theorem dropLaterActive_true (l : List ProfileMetadata) :
    dropLaterActive true l = l.map (fun p => { p with active := false }) := by
  induction l with
  | nil => simp [dropLaterActive]
  | cons p rest ih =>
    by_cases hp : p.active
    · simp [dropLaterActive, hp, ih]
    · obtain ⟨pid, pname, pact⟩ := p
      simp only at hp
      simp [dropLaterActive, hp, ih]

theorem dropLaterActive_false (l : List ProfileMetadata) :
    dropLaterActive false l = keepFirstActive l := by
  induction l with
  | nil => simp [dropLaterActive, keepFirstActive]
  | cons p rest ih =>
    by_cases hp : p.active
    · simp [dropLaterActive, keepFirstActive, hp, dropLaterActive_true]
    · simp [dropLaterActive, keepFirstActive, hp, ih]

theorem countActive_keepFirstActive (l : List ProfileMetadata) :
    countActive (keepFirstActive l) ≤ 1 := by
  induction l with
  | nil => simp [keepFirstActive, countActive]
  | cons p rest ih =>
    by_cases hp : p.active
    · simp [keepFirstActive, hp, countActive_cons, countActive_deactivate]
    · simp [keepFirstActive, hp, countActive_cons, ih]

theorem countActive_eq_zero_cons {p : ProfileMetadata} {l : List ProfileMetadata}
    (h : countActive (p :: l) = 0) : p.active = false ∧ countActive l = 0 := by
  rw [countActive_cons] at h
  by_cases hp : p.active
  · simp [hp] at h
  · simp [hp] at h
    exact ⟨by simp [hp], h⟩

theorem countActive_modifyFirst_activate (pred : ProfileMetadata → Bool) :
    ∀ (l : List ProfileMetadata), countActive l = 0 →
      countActive (modifyFirst l pred (fun p => { p with active := true })) ≤ 1 := by
  intro l
  induction l with
  | nil => intro _; simp [modifyFirst, countActive]
  | cons p rest ih =>
    intro h
    obtain ⟨hp, hrest⟩ := countActive_eq_zero_cons h
    by_cases hpred : pred p
    · simp [modifyFirst, hpred, countActive_cons, hrest]
    · simp [modifyFirst, hpred, countActive_cons, hp]
      exact ih hrest

theorem modifyFirst_not_found (pred : ProfileMetadata → Bool)
    (f : ProfileMetadata → ProfileMetadata) :
    ∀ (l : List ProfileMetadata), (∀ p ∈ l, pred p = false) →
      modifyFirst l pred f = l := by
  intro l
  induction l with
  | nil => intro _; simp [modifyFirst]
  | cons p rest ih =>
    intro h
    have hp := h p (List.mem_cons_self p rest)
    simp [modifyFirst, hp]
    exact ih (fun q hq => h q (List.mem_cons_of_mem p hq))

theorem modifyFirst_eq_map_of_nodup (id : String)
    (f : ProfileMetadata → ProfileMetadata) :
    ∀ (l : List ProfileMetadata), (l.map (fun p => p.id)).Nodup →
      modifyFirst l (fun p => p.id == id) f
        = l.map (fun p => if p.id == id then f p else p) := by
  intro l
  induction l with
  | nil => intro _; simp [modifyFirst]
  | cons p rest ih =>
    intro h
    simp only [List.map_cons, List.nodup_cons] at h
    by_cases hp : p.id = id
    · have hrest : ∀ q ∈ rest, (if q.id == id then f q else q) = q := by
        intro q hq
        have hq2 : q.id ≠ id := by
          intro he
          apply h.1
          rw [hp, ← he]
          exact List.mem_map_of_mem (fun p => p.id) hq
        simp [hq2]
      have h2 : rest.map (fun q => if q.id = id then f q else q) = rest := by
        have h3 := List.map_congr_left hrest
        simpa using h3
      simp [modifyFirst, hp, h2]
    · simp [modifyFirst, hp, ih h.2]

theorem filter_idEq_of_nodup (id : String) :
    ∀ (l : List ProfileMetadata), (l.map (fun p => p.id)).Nodup →
      id ∈ l.map (fun p => p.id) →
      (l.filter (fun p => p.id == id)).length = 1 := by
  intro l
  induction l with
  | nil => intro _ hm; simp at hm
  | cons p rest ih =>
    intro hnd hm
    simp only [List.map_cons, List.nodup_cons] at hnd
    by_cases hp : p.id = id
    · have hnone : rest.filter (fun q => q.id == id) = [] := by
        rw [List.filter_eq_nil]
        intro q hq hqeq
        apply hnd.1
        rw [hp, ← (by simpa using hqeq : q.id = id)]
        exact List.mem_map_of_mem (fun p => p.id) hq
      simp [List.filter_cons, hp, hnone]
    · simp only [List.map_cons, List.mem_cons] at hm
      rcases hm with hm | hm
      · exact absurd hm.symm hp
      · simp [List.filter_cons, hp]
        exact ih hnd.2 hm

theorem writeContent_eq (c : Contents) (id content x : String) :
    writeContent c id content x = if x = id then some content else c x := rfl

theorem writeAll_lookup :
    ∀ (l : List (String × String)) (c : Contents) (x : String),
      (l.map Prod.fst).Nodup →
      writeAll c l x = match lookupPairs l x with
        | some v => some v
        | none => c x := by
  intro l
  induction l with
  | nil => intro c x _; simp [writeAll, lookupPairs]
  | cons pr rest ih =>
    intro c x h
    simp only [List.map_cons, List.nodup_cons] at h
    have hstep : writeAll c (pr :: rest) x = writeAll (writeContent c pr.1 pr.2) rest x := by
      simp [writeAll]
    rw [hstep, ih (writeContent c pr.1 pr.2) x h.2]
    by_cases hx : pr.1 = x
    · have hnone : lookupPairs rest x = none := by
        simp only [lookupPairs, Option.map_eq_none']
        rw [List.find?_eq_none]
        intro q hq hqx
        apply h.1
        rw [hx, ← (by simpa using hqx : q.1 = x)]
        exact List.mem_map_of_mem Prod.fst hq
      have hbeq : (pr.1 == x) = true := by simp [hx]
      have hhead : lookupPairs (pr :: rest) x = some pr.2 := by
        simp [lookupPairs, List.find?_cons, hbeq]
      rw [hhead, hnone]
      rw [writeContent_eq, if_pos hx.symm]
    · have hbeq : (pr.1 == x) = false := by simp [hx]
      have hcons : lookupPairs (pr :: rest) x = lookupPairs rest x := by
        simp [lookupPairs, List.find?_cons, hbeq]
      rw [hcons]
      cases hrest : lookupPairs rest x with
      | some v => simp
      | none => rw [writeContent_eq, if_neg (fun h => hx h.symm)]

theorem writeAll_graph (g : String → String) :
    ∀ (l : List (String × String)) (c : Contents) (x : String),
      (∀ pr ∈ l, pr.2 = g pr.1) →
      writeAll c l x = if x ∈ l.map Prod.fst then some (g x) else c x := by
  intro l
  induction l with
  | nil => intro c x _; simp [writeAll]
  | cons pr rest ih =>
    intro c x h
    have hstep : writeAll c (pr :: rest) x = writeAll (writeContent c pr.1 pr.2) rest x := by
      simp [writeAll]
    rw [hstep, ih (writeContent c pr.1 pr.2) x (fun q hq => h q (List.mem_cons_of_mem pr hq))]
    by_cases hmem : x ∈ rest.map Prod.fst
    · simp [hmem]
    · by_cases hx : x = pr.1
      · have hval := h pr (List.mem_cons_self pr rest)
        simp [hmem, hx, writeContent_eq, hval]
      · simp [hmem, hx, writeContent_eq]

theorem upsert_fst_ok (st : StoreState) (name content : String) :
    ∃ id, (upsert_profile_internal st name content).1 = Except.ok id := by
  unfold upsert_profile_internal
  cases h : find_profile_id_by_name_internal st.config name with
  | some id => exact ⟨id, rfl⟩
  | none =>
    have hany : st.config.profiles.any (fun p => p.name == name) = false := by
      rw [List.any_eq_false]
      unfold find_profile_id_by_name_internal at h
      rw [Option.map_eq_none'] at h
      rw [List.find?_eq_none] at h
      exact h
    unfold create_profile_internal
    rw [if_neg (by simp [hany])]
    exact ⟨freshUuid st.nextId, rfl⟩

theorem runUpserts_nil (st : StoreState) : runUpserts st [] = st := rfl

theorem runUpserts_cons (st : StoreState) (tc : String × String)
    (l : List (String × String)) :
    runUpserts st (tc :: l) = runUpserts (upsert_profile_internal st tc.1 tc.2).2 l := rfl

theorem runUpserts_append (st : StoreState) (l1 l2 : List (String × String)) :
    runUpserts st (l1 ++ l2) = runUpserts (runUpserts st l1) l2 := by
  simp [runUpserts, List.foldl_append]


theorem parse_nil (st : StoreState) (count : Nat) :
    parse_switchhosts_items_internal st [] count = Except.ok (st, count) := by
  rw [parse_switchhosts_items_internal]

theorem parse_cons_folder_some (st : StoreState) (item : Json) (rest : List Json)
    (count : Nat) (children : List Json) (hfold : itemFolder item = true)
    (hch : (item.get "children").bind Json.asArray = some children) :
    parse_switchhosts_items_internal st (item :: rest) count
      = match parse_switchhosts_items_internal st children count with
        | Except.error e => Except.error e
        | Except.ok sc => parse_switchhosts_items_internal sc.1 rest sc.2 := by
  rw [parse_switchhosts_items_internal]
  simp only [hfold, if_pos]
  split
  · rename_i children2 hc2
    rw [hch] at hc2
    cases hc2
    rfl
  · rename_i hc2
    rw [hch] at hc2
    cases hc2

theorem parse_cons_folder_none (st : StoreState) (item : Json) (rest : List Json)
    (count : Nat) (hfold : itemFolder item = true)
    (hch : (item.get "children").bind Json.asArray = none) :
    parse_switchhosts_items_internal st (item :: rest) count
      = parse_switchhosts_items_internal st rest count := by
  rw [parse_switchhosts_items_internal]
  simp only [hfold, if_pos]
  split
  · rename_i children2 hc2
    rw [hch] at hc2
    cases hc2
  · rfl

theorem parse_cons_leaf (st : StoreState) (item : Json) (rest : List Json)
    (count : Nat) (hfold : itemFolder item = false) :
    parse_switchhosts_items_internal st (item :: rest) count
      = match upsert_profile_internal st (itemTitle item) (itemContent item) with
        | (Except.error e, _) => Except.error e
        | (Except.ok _, st2) => parse_switchhosts_items_internal st2 rest (count + 1) := by
  rw [parse_switchhosts_items_internal]
  simp only [hfold]
  rfl

theorem legacyLeaves_nil : legacyLeaves [] = [] := by
  rw [legacyLeaves]

theorem legacyLeaves_cons_folder_some (item : Json) (rest : List Json)
    (children : List Json) (hfold : itemFolder item = true)
    (hch : (item.get "children").bind Json.asArray = some children) :
    legacyLeaves (item :: rest) = legacyLeaves children ++ legacyLeaves rest := by
  rw [legacyLeaves]
  simp only [hfold, if_pos]
  congr 1
  split
  · rename_i children2 hc2
    rw [hch] at hc2
    cases hc2
    rfl
  · rename_i hc2
    rw [hch] at hc2
    cases hc2

theorem legacyLeaves_cons_folder_none (item : Json) (rest : List Json)
    (hfold : itemFolder item = true)
    (hch : (item.get "children").bind Json.asArray = none) :
    legacyLeaves (item :: rest) = legacyLeaves rest := by
  rw [legacyLeaves]
  simp only [hfold, if_pos]
  rw [show (match hc : (item.get "children").bind Json.asArray with
      | some children => legacyLeaves children
      | none => ([] : List (String × String))) = [] from ?_]
  · simp
  · split
    · rename_i children2 hc2
      rw [hch] at hc2
      cases hc2
    · rfl

theorem legacyLeaves_cons_leaf (item : Json) (rest : List Json)
    (hfold : itemFolder item = false) :
    legacyLeaves (item :: rest)
      = (itemTitle item, itemContent item) :: legacyLeaves rest := by
  rw [legacyLeaves]
  simp [hfold]

theorem parse_eq_runUpserts :
    ∀ (st : StoreState) (items : List Json) (count : Nat),
      parse_switchhosts_items_internal st items count
        = Except.ok (runUpserts st (legacyLeaves items),
            count + (legacyLeaves items).length) := by
  intro st items count
  induction st, items, count using parse_switchhosts_items_internal.induct with
  | case1 st count =>
    simp [parse_nil, legacyLeaves_nil, runUpserts_nil]
  | case2 st count item rest hfold children hch e hperr ih =>
    rw [ih] at hperr
    exact absurd hperr (by simp)
  | case3 st count item rest hfold children hch sc hpok ih1 ih2 =>
    rw [ih1] at hpok
    have hsc : sc = (runUpserts st (legacyLeaves children),
        count + (legacyLeaves children).length) := by
      cases hpok
      rfl
    have ih2b := ih2
    rw [hsc] at ih2b
    simp only [] at ih2b
    calc parse_switchhosts_items_internal st (item :: rest) count
        = match parse_switchhosts_items_internal st children count with
          | Except.error e => Except.error e
          | Except.ok sc => parse_switchhosts_items_internal sc.1 rest sc.2 :=
          parse_cons_folder_some st item rest count children hfold hch
      _ = parse_switchhosts_items_internal (runUpserts st (legacyLeaves children)) rest
            (count + (legacyLeaves children).length) := by rw [ih1]
      _ = Except.ok (runUpserts st (legacyLeaves (item :: rest)),
            count + (legacyLeaves (item :: rest)).length) := by
          rw [ih2b, legacyLeaves_cons_folder_some item rest children hfold hch,
            runUpserts_append]
          simp [Nat.add_assoc]
  | case4 st count item rest hfold hch ih =>
    rw [parse_cons_folder_none st item rest count hfold hch,
      legacyLeaves_cons_folder_none item rest hfold hch]
    exact ih
  | case5 st count item rest hfold e snd hup =>
    obtain ⟨id, hok⟩ := upsert_fst_ok st (itemTitle item) (itemContent item)
    rw [hup] at hok
    exact absurd hok (by simp)
  | case6 st count item rest hfold a st2 hup ih =>
    have hfold2 : itemFolder item = false := by simp [hfold]
    rw [parse_cons_leaf st item rest count hfold2, hup]
    simp only []
    have hst2 : st2 = (upsert_profile_internal st (itemTitle item) (itemContent item)).2 := by
      rw [hup]
    rw [ih, legacyLeaves_cons_leaf item rest hfold2]
    simp [runUpserts_cons, hst2, Nat.add_assoc, Nat.add_comm 1]

theorem countActive_map_set (g : ProfileMetadata → Bool) (l : List ProfileMetadata) :
    countActive (l.map (fun p => { p with active := g p })) = (l.filter g).length := by
  induction l with
  | nil => simp [countActive]
  | cons p rest ih =>
    by_cases hp : g p
    · simp [countActive_cons, hp, List.filter_cons, ih, Nat.add_comm]
    · simp [countActive_cons, hp, List.filter_cons, ih]

/-! ### Claim theorems -/

/-- C3: `apply_config_internal` produces the fixed header comment, then the
common section (header plus common-config text), then one section per
`active == true` profile iterated in config order, each consisting of a
header containing the profile name followed by its content (empty for a
missing file, by `readProfile`); the common section therefore precedes
every profile section and each section appears exactly once. -/
theorem c3_synthesis_structure (config : AppConfig) (common_config : String)
    (contents : Contents) :
    apply_config_internal config common_config contents
      = synthesize_spec config common_config contents := by
  unfold apply_config_internal synthesize_spec
  rw [renderActiveSections_eq]

/-- C1: after `toggle_profile_active_internal` in single-select mode, and
after `set_multi_select_internal _ false`, at most one profile is active;
moreover disabling multi-select keeps `active` only on the first active
profile in stored order, deactivating every later one. -/
theorem c1_single_select_invariant (config : AppConfig) (id : String) :
    (config.multi_select = false →
      countActive (toggle_profile_active_internal config id).profiles ≤ 1)
    ∧ countActive (set_multi_select_internal config false).profiles ≤ 1
    ∧ (set_multi_select_internal config false).profiles
        = keepFirstActive config.profiles := by
  refine ⟨?_, ?_, ?_⟩
  · intro hm
    unfold toggle_profile_active_internal
    rw [if_neg (by simp [hm])]
    cases hw : ((config.profiles.find? (fun p => p.id == id)).map (fun p => p.active)).getD false
    · simp only [hw, Bool.not_false, if_pos]
      exact countActive_modifyFirst_activate _ _ (countActive_deactivate _)
    · simp only [hw, Bool.not_true, Bool.false_eq_true, if_false]
      simp [countActive_deactivate]
  · unfold set_multi_select_internal
    simp only [Bool.not_false, if_pos]
    simp [dropLaterActive_false, countActive_keepFirstActive]
  · unfold set_multi_select_internal
    simp only [Bool.not_false, if_pos]
    simp [dropLaterActive_false]

def c1Config : AppConfig :=
  { multi_select := false
    profiles := [{ id := "a", name := "Dev", active := true },
                 { id := "b", name := "Test", active := true }]
    active_profile_ids := [] }

theorem c1_witness :
    countActive (toggle_profile_active_internal c1Config "b").profiles ≤ 1
    ∧ countActive (set_multi_select_internal c1Config false).profiles ≤ 1
    ∧ (set_multi_select_internal c1Config false).profiles
        = keepFirstActive c1Config.profiles := by
  have h := c1_single_select_invariant c1Config "b"
  exact ⟨h.1 rfl, h.2.1, h.2.2⟩

/-- C9: in multi-select mode, toggling a present profile id negates the
`active` flag of exactly the named profile: the result is the pointwise
map flipping only entries whose id matches, leaving every other profile's
fields, the list order, and the `multi_select` flag unchanged. -/
theorem c9_multi_select_toggle_frame (config : AppConfig) (id : String)
    (hm : config.multi_select = true)
    (hmem : id ∈ config.profiles.map (fun p => p.id))
    (hnd : (config.profiles.map (fun p => p.id)).Nodup) :
    (toggle_profile_active_internal config id).multi_select = true
    ∧ (toggle_profile_active_internal config id).active_profile_ids
        = config.active_profile_ids
    ∧ (toggle_profile_active_internal config id).profiles
        = config.profiles.map (fun p =>
            if p.id == id then { p with active := !p.active } else p) := by
  unfold toggle_profile_active_internal
  rw [if_pos hm]
  refine ⟨hm, rfl, ?_⟩
  exact modifyFirst_eq_map_of_nodup id _ _ hnd

def c9Config : AppConfig :=
  { multi_select := true
    profiles := [{ id := "a", name := "Dev", active := true },
                 { id := "b", name := "Test", active := false }]
    active_profile_ids := [] }

theorem c9_witness :
    (toggle_profile_active_internal c9Config "b").multi_select = true
    ∧ (toggle_profile_active_internal c9Config "b").active_profile_ids
        = c9Config.active_profile_ids
    ∧ (toggle_profile_active_internal c9Config "b").profiles
        = c9Config.profiles.map (fun p =>
            if p.id == "b" then { p with active := !p.active } else p) :=
  c9_multi_select_toggle_frame c9Config "b" rfl (by decide) (by decide)

/-- C10: in single-select mode, toggling an id that is not present is not
a no-op: the persisted config has every profile's `active` flag cleared
(ids, names, order and `multi_select` unchanged), because the
deactivate-all step runs before the target lookup, which then silently
misses. -/
theorem c10_missing_id_single_select (config : AppConfig) (id : String)
    (hm : config.multi_select = false)
    (hmem : id ∉ config.profiles.map (fun p => p.id)) :
    toggle_profile_active_internal config id
      = { config with
          profiles := config.profiles.map (fun p => { p with active := false }) } := by
  unfold toggle_profile_active_internal
  rw [if_neg (by simp [hm])]
  have hfind : config.profiles.find? (fun p => p.id == id) = none := by
    rw [List.find?_eq_none]
    intro p hp hpe
    apply hmem
    rw [List.mem_map]
    exact ⟨p, hp, by simpa using hpe⟩
  rw [hfind]
  simp only [Option.map_none', Option.getD_none, Bool.not_false, if_pos]
  have hnone : ∀ p ∈ config.profiles.map (fun p => { p with active := false }),
      (fun p => p.id == id) p = false := by
    intro p hp
    rw [List.mem_map] at hp
    obtain ⟨q, hq, rfl⟩ := hp
    simp only [beq_eq_false_iff_ne, ne_eq]
    intro he
    apply hmem
    rw [List.mem_map]
    exact ⟨q, hq, he⟩
  rw [modifyFirst_not_found _ _ _ hnone]

def c10Config : AppConfig :=
  { multi_select := false
    profiles := [{ id := "a", name := "Dev", active := true }]
    active_profile_ids := [] }

theorem c10_witness :
    toggle_profile_active_internal c10Config "zz"
      = { c10Config with
          profiles := c10Config.profiles.map (fun p => { p with active := false }) } :=
  c10_missing_id_single_select c10Config "zz" rfl (by decide)

/-- C2: in single-select mode with a present profile id, the toggle first
records `was_active` for the target, deactivates every profile, and
re-activates the target exactly when it was previously inactive: the
result is the pointwise map setting `active := (p.id == id && !was)`,
so toggling an inactive profile leaves it the sole active profile and
toggling the active one leaves zero profiles active. -/
theorem c2_single_select_toggle (config : AppConfig) (id : String)
    (hm : config.multi_select = false)
    (hmem : id ∈ config.profiles.map (fun p => p.id))
    (hnd : (config.profiles.map (fun p => p.id)).Nodup) :
    (toggle_profile_active_internal config id).profiles
      = config.profiles.map (fun p =>
          { p with active := p.id == id
              && !(((config.profiles.find? (fun q => q.id == id)).map
                    (fun q => q.active)).getD false) })
    ∧ (toggle_profile_active_internal config id).multi_select = false
    ∧ ((((config.profiles.find? (fun q => q.id == id)).map
          (fun q => q.active)).getD false) = false →
        countActive (toggle_profile_active_internal config id).profiles = 1)
    ∧ ((((config.profiles.find? (fun q => q.id == id)).map
          (fun q => q.active)).getD false) = true →
        countActive (toggle_profile_active_internal config id).profiles = 0) := by
  have hids : (config.profiles.map (fun p => { p with active := false })).map
      (fun p => p.id) = config.profiles.map (fun p => p.id) := by
    rw [List.map_map]
    rfl
  have hmain : (toggle_profile_active_internal config id).profiles
      = config.profiles.map (fun p =>
          { p with active := p.id == id
              && !(((config.profiles.find? (fun q => q.id == id)).map
                    (fun q => q.active)).getD false) }) := by
    unfold toggle_profile_active_internal
    rw [if_neg (by simp [hm])]
    cases hw : ((config.profiles.find? (fun q => q.id == id)).map
        (fun q => q.active)).getD false
    · simp only [hw, Bool.not_false, if_pos]
      rw [modifyFirst_eq_map_of_nodup id _ _ (hids ▸ hnd)]
      rw [List.map_map]
      apply List.map_congr_left
      intro p _
      by_cases hp : p.id = id
      · simp [Function.comp, hp]
      · simp [Function.comp, hp]
    · simp only [hw, Bool.not_true, Bool.false_eq_true, if_false]
      apply List.map_congr_left
      intro p _
      simp
  have hms : (toggle_profile_active_internal config id).multi_select = false := by
    unfold toggle_profile_active_internal
    rw [if_neg (by simp [hm])]
    cases hw : ((config.profiles.find? (fun p => p.id == id)).map
        (fun p => p.active)).getD false <;> simp [hw, hm]
  refine ⟨hmain, hms, ?_, ?_⟩
  · intro hw
    rw [hmain]
    have := countActive_map_set (fun p => p.id == id
        && !(((config.profiles.find? (fun q => q.id == id)).map
              (fun q => q.active)).getD false)) config.profiles
    rw [this, hw]
    simp only [Bool.not_false, Bool.and_true]
    exact filter_idEq_of_nodup id config.profiles hnd hmem
  · intro hw
    rw [hmain]
    have := countActive_map_set (fun p => p.id == id
        && !(((config.profiles.find? (fun q => q.id == id)).map
              (fun q => q.active)).getD false)) config.profiles
    rw [this, hw]
    simp

def c2Config : AppConfig :=
  { multi_select := false
    profiles := [{ id := "a", name := "Dev", active := false },
                 { id := "b", name := "Test", active := false }]
    active_profile_ids := [] }

theorem c2_witness :
    (toggle_profile_active_internal c2Config "b").profiles
      = c2Config.profiles.map (fun p =>
          { p with active := p.id == "b"
              && !(((c2Config.profiles.find? (fun q => q.id == "b")).map
                    (fun q => q.active)).getD false) })
    ∧ countActive (toggle_profile_active_internal c2Config "b").profiles = 1 := by
  have h := c2_single_select_toggle c2Config "b" rfl (by decide) (by decide)
  exact ⟨h.1, h.2.2.1 (by decide)⟩

/-- C6: `create_profile_internal` with a name already present (exact
case-sensitive string equality) returns the duplicate-name error and
leaves the store untouched; otherwise it returns a fresh id, writes the
content document (given content or empty), appends metadata with
`active = false`, and leaves `multi_select` unchanged in the persisted
config. -/
theorem c6_create_duplicate_guard (st : StoreState) (name : String)
    (content : Option String) :
    (st.config.profiles.any (fun p => p.name == name) = true →
      create_profile_internal st name content
        = (Except.error "环境名称已存在 / Profile name already exists", st))
    ∧ (st.config.profiles.any (fun p => p.name == name) = false →
      (create_profile_internal st name content).1 = Except.ok (freshUuid st.nextId)
      ∧ (create_profile_internal st name content).2.config.profiles
          = st.config.profiles
            ++ [{ id := freshUuid st.nextId, name := name, active := false }]
      ∧ (create_profile_internal st name content).2.config.multi_select
          = st.config.multi_select
      ∧ (create_profile_internal st name content).2.contents
          = writeContent st.contents (freshUuid st.nextId) (content.getD "")) := by
  constructor
  · intro h
    unfold create_profile_internal
    rw [if_pos h]
  · intro h
    unfold create_profile_internal
    rw [if_neg (by simp [h])]
    exact ⟨rfl, rfl, rfl, rfl⟩

def c6Store : StoreState :=
  { config := { multi_select := false
                profiles := [{ id := "a", name := "Dev", active := false }]
                active_profile_ids := [] }
    contents := fun _ => none
    nextId := 5 }

theorem c6_witness :
    create_profile_internal c6Store "Dev" none
      = (Except.error "环境名称已存在 / Profile name already exists", c6Store)
    ∧ (create_profile_internal c6Store "Prod" (some "1.2.3.4 x")).1
        = Except.ok (freshUuid 5)
    ∧ (create_profile_internal c6Store "Prod" (some "1.2.3.4 x")).2.config.profiles
        = c6Store.config.profiles
          ++ [{ id := freshUuid 5, name := "Prod", active := false }] := by
  have h1 := (c6_create_duplicate_guard c6Store "Dev" none).1 (by decide)
  have h2 := (c6_create_duplicate_guard c6Store "Prod" (some "1.2.3.4 x")).2 (by decide)
  exact ⟨h1, h2.1, h2.2.1⟩

def c8Config : AppConfig :=
  { multi_select := false
    profiles := [{ id := "a", name := "X", active := false }]
    active_profile_ids := [] }

/-- C8 counterexample: the id `"b"` is absent from `c8Config`, yet
`rename_profile_internal` does not return success — the duplicate-name
check runs before the id lookup, so renaming an unknown id to a name some
profile already holds yields the duplicate-name error. -/
theorem c8_counterexample :
    ("b" ∉ c8Config.profiles.map (fun p => p.id))
    ∧ rename_profile_internal c8Config "b" "X"
        = Except.error "环境名称已存在 / Profile name already exists" := by
  constructor
  · decide
  · rfl

/-- C8 amended: for an id not present in the config, rename succeeds and
leaves the config unchanged provided no existing profile holds the new
name; it fails with the duplicate-name error exactly when some profile
holds the new name. -/
theorem c8_rename_missing_id (config : AppConfig) (id new_name : String)
    (hid : id ∉ config.profiles.map (fun p => p.id)) :
    ((∀ p ∈ config.profiles, p.name ≠ new_name) →
      rename_profile_internal config id new_name = Except.ok config)
    ∧ (rename_profile_internal config id new_name
          = Except.error "环境名称已存在 / Profile name already exists"
        ↔ ∃ p ∈ config.profiles, p.name = new_name) := by
  have hpid : ∀ p ∈ config.profiles, p.id ≠ id := by
    intro p hp he
    apply hid
    rw [List.mem_map]
    exact ⟨p, hp, he⟩
  have hnoop : modifyFirst config.profiles (fun p => p.id == id)
      (fun p => { p with name := new_name }) = config.profiles := by
    apply modifyFirst_not_found
    intro p hp
    simpa using hpid p hp
  constructor
  · intro hnames
    unfold rename_profile_internal
    rw [if_neg ?hg, hnoop]
    case hg =>
      rw [List.any_eq_true]
      rintro ⟨p, hp, hc⟩
      simp only [Bool.and_eq_true, beq_iff_eq] at hc
      exact hnames p hp hc.1
  · constructor
    · intro herr
      by_cases hany : config.profiles.any
          (fun p => p.name == new_name && p.id != id) = true
      · rw [List.any_eq_true] at hany
        obtain ⟨p, hp, hc⟩ := hany
        simp only [Bool.and_eq_true, beq_iff_eq] at hc
        exact ⟨p, hp, hc.1⟩
      · unfold rename_profile_internal at herr
        rw [if_neg hany] at herr
        exact absurd herr (by simp)
    · rintro ⟨p, hp, hname⟩
      unfold rename_profile_internal
      rw [if_pos ?hg2]
      case hg2 =>
        rw [List.any_eq_true]
        refine ⟨p, hp, ?_⟩
        simp only [Bool.and_eq_true, beq_iff_eq, bne_iff_ne, ne_eq]
        exact ⟨hname, hpid p hp⟩

theorem c8_witness :
    rename_profile_internal c8Config "b" "Y" = Except.ok c8Config
    ∧ (rename_profile_internal c8Config "b" "X"
          = Except.error "环境名称已存在 / Profile name already exists"
        ↔ ∃ p ∈ c8Config.profiles, p.name = "X") := by
  have h1 := c8_rename_missing_id c8Config "b" "Y" (by decide)
  have h2 := c8_rename_missing_id c8Config "b" "X" (by decide)
  exact ⟨h1.1 (by decide), h2.2⟩

/-- C4: importing the backup produced by export restores the same
`AppConfig` (hence the same `multi_select` flag and the same profile
metadata in the same order), and for every profile id in the config the
resulting content document reads back identical to the exported one. -/
theorem c4_export_import_roundtrip (st : StoreState) (timestamp : String) :
    (import_data_internal st
        (export_data_internal st.config st.contents timestamp)).config = st.config
    ∧ ∀ id, id ∈ st.config.profiles.map (fun p => p.id) →
        readProfile (import_data_internal st
            (export_data_internal st.config st.contents timestamp)).contents id
          = readProfile st.contents id := by
  constructor
  · rfl
  · intro id hid
    have hcontents : (import_data_internal st
        (export_data_internal st.config st.contents timestamp)).contents
        = writeAll st.contents ((list_profiles_internal st.config st.contents).map
            (fun p => (p.id, p.content))) := rfl
    have hgraph : ∀ pr ∈ (list_profiles_internal st.config st.contents).map
        (fun p => (p.id, p.content)), pr.2 = readProfile st.contents pr.1 := by
      intro pr hpr
      rw [List.mem_map] at hpr
      obtain ⟨q, hq, rfl⟩ := hpr
      unfold list_profiles_internal at hq
      rw [List.mem_map] at hq
      obtain ⟨m, _, rfl⟩ := hq
      rfl
    have hkeys : ((list_profiles_internal st.config st.contents).map
        (fun p => (p.id, p.content))).map Prod.fst
        = st.config.profiles.map (fun p => p.id) := by
      unfold list_profiles_internal
      rw [List.map_map, List.map_map]
      rfl
    unfold readProfile
    rw [hcontents, writeAll_graph (readProfile st.contents) _ _ _ hgraph, hkeys,
      if_pos hid]
    rfl

def c4Store : StoreState :=
  { config := { multi_select := true
                profiles := [{ id := "a", name := "Dev", active := true },
                             { id := "b", name := "Test", active := false }]
                active_profile_ids := [] }
    contents := fun x => if x = "a" then some "1.2.3.4 dev" else none
    nextId := 0 }

theorem c4_witness :
    (import_data_internal c4Store
        (export_data_internal c4Store.config c4Store.contents "t")).config
      = c4Store.config
    ∧ readProfile (import_data_internal c4Store
          (export_data_internal c4Store.config c4Store.contents "t")).contents "a"
        = readProfile c4Store.contents "a"
    ∧ readProfile (import_data_internal c4Store
          (export_data_internal c4Store.config c4Store.contents "t")).contents "b"
        = readProfile c4Store.contents "b" := by
  have h := c4_export_import_roundtrip c4Store "t"
  exact ⟨h.1, h.2 "a" (by decide), h.2 "b" (by decide)⟩

/-- C5: a backup carrying the legacy id-to-content mapping field imports
to the same content document for every id as an equivalent backup carrying
the current sequence-of-records field; and the codec tries the sequence
field first — when it is present, the mapping field is ignored entirely
and is only consulted when the sequence field is absent. -/
theorem c5_legacy_backup_equivalence :
    (∀ (st : StoreState) (ver : Int) (ts : String) (cfg : AppConfig)
        (ps : List ProfileData) (pc : Option (List (String × String))),
      import_data_internal st ⟨ver, ts, cfg, some ps, pc⟩
        = import_data_internal st ⟨ver, ts, cfg, some ps, none⟩)
    ∧ (∀ (st : StoreState) (ver : Int) (ts : String) (cfg : AppConfig)
        (pairs : List (String × String)) (records : List ProfileData),
      (pairs.map Prod.fst).Nodup →
      (records.map (fun p => p.id)).Nodup →
      (∀ x, lookupPairs pairs x = lookupRecords records x) →
      ∀ x, readProfile (import_data_internal st ⟨ver, ts, cfg, none, some pairs⟩).contents x
          = readProfile
              (import_data_internal st ⟨ver, ts, cfg, some records, none⟩).contents x) := by
  constructor
  · intro st ver ts cfg ps pc
    rfl
  · intro st ver ts cfg pairs records hnd1 hnd2 heq x
    have h1 : (import_data_internal st ⟨ver, ts, cfg, none, some pairs⟩).contents
        = writeAll st.contents pairs := rfl
    have h2 : (import_data_internal st ⟨ver, ts, cfg, some records, none⟩).contents
        = writeAll st.contents (records.map (fun p => (p.id, p.content))) := rfl
    have hnd2b : ((records.map (fun p => (p.id, p.content))).map Prod.fst).Nodup := by
      rw [List.map_map]
      exact hnd2
    have hlook : lookupPairs (records.map (fun p => (p.id, p.content))) x
        = lookupRecords records x := by
      unfold lookupPairs lookupRecords
      rw [List.find?_map, Option.map_map]
      rfl
    unfold readProfile
    rw [h1, h2, writeAll_lookup pairs st.contents x hnd1,
      writeAll_lookup (records.map (fun p => (p.id, p.content))) st.contents x hnd2b,
      hlook, heq x]

def c5Pairs : List (String × String) := [("a", "1.1.1.1 x"), ("b", "2.2.2.2 y")]

def c5Records : List ProfileData :=
  [{ id := "a", name := "Dev", content := "1.1.1.1 x", active := true },
   { id := "b", name := "Test", content := "2.2.2.2 y", active := false }]

def c5Config : AppConfig := { multi_select := false, profiles := [], active_profile_ids := [] }

def c5Store : StoreState := { config := c5Config, contents := fun _ => none, nextId := 0 }

theorem c5_witness :
    import_data_internal c5Store ⟨1, "t", c5Config, some c5Records, some c5Pairs⟩
      = import_data_internal c5Store ⟨1, "t", c5Config, some c5Records, none⟩
    ∧ readProfile (import_data_internal c5Store
          ⟨1, "t", c5Config, none, some c5Pairs⟩).contents "a"
        = readProfile (import_data_internal c5Store
            ⟨1, "t", c5Config, some c5Records, none⟩).contents "a" := by
  have h := c5_legacy_backup_equivalence
  refine ⟨h.1 c5Store 1 "t" c5Config c5Records (some c5Pairs), ?_⟩
  apply h.2 c5Store 1 "t" c5Config c5Pairs c5Records (by decide) (by decide)
  intro x
  by_cases ha : "a" = x
  · simp [c5Pairs, c5Records, lookupPairs, lookupRecords, List.find?_cons, ha]
  · by_cases hb : "b" = x
    · simp [c5Pairs, c5Records, lookupPairs, lookupRecords, List.find?_cons, ha, hb]
    · simp [c5Pairs, c5Records, lookupPairs, lookupRecords, List.find?_cons, ha, hb]

def c7Store : StoreState :=
  { config := { multi_select := false, profiles := [], active_profile_ids := [] }
    contents := fun _ => none
    nextId := 0 }

def shLeaf (title content : String) : Json :=
  Json.obj [("title", Json.str title), ("content", Json.str content)]

def shFolder (title : String) (children : List Json) : Json :=
  Json.obj [("title", Json.str title), ("type", Json.str "folder"),
    ("children", Json.arr children)]

def c7Tree : List Json :=
  [shFolder "F" [shLeaf "X" "A", shLeaf "Y" "B", shFolder "G" [shLeaf "Z" "C"]]]

def c7DupTree : List Json := [shLeaf "X" "A", shLeaf "X" "B"]

/-- C7: the legacy tree walk is depth-first pre-order over `children`:
the walk equals folding the pre-order list of non-folder leaves through
`upsert_profile_internal`, with the returned count increased by exactly
the number of leaves (folder nodes contribute none); in particular a
folder containing two leaves plus a nested folder with one leaf imports
with count 3, and two leaves sharing a title produce a single profile
holding the last leaf's content. -/
theorem c7_tree_import_walk :
    (∀ (st : StoreState) (items : List Json) (count : Nat),
      parse_switchhosts_items_internal st items count
        = Except.ok (runUpserts st (legacyLeaves items),
            count + (legacyLeaves items).length))
    ∧ (parse_switchhosts_items_internal c7Store c7Tree 0).toOption.map
        (fun r => r.2) = some 3
    ∧ (parse_switchhosts_items_internal c7Store c7DupTree 0).toOption.map
        (fun r => (r.1.config.profiles.map (fun p => p.name),
          readProfile r.1.contents (freshUuid 0), r.2))
      = some (["X"], "B", 2) := by
  have hL : legacyLeaves c7Tree = [("X", "A"), ("Y", "B"), ("Z", "C")] := by
    simp [legacyLeaves, c7Tree, shLeaf, shFolder, itemFolder, itemTitle, itemContent,
      Json.get, Json.getField, Json.asStr, Json.asBool, Json.asArray]
  have hL2 : legacyLeaves c7DupTree = [("X", "A"), ("X", "B")] := by
    simp [legacyLeaves, c7DupTree, shLeaf, itemFolder, itemTitle, itemContent,
      Json.get, Json.getField, Json.asStr, Json.asBool, Json.asArray]
  refine ⟨parse_eq_runUpserts, ?_, ?_⟩
  · rw [parse_eq_runUpserts, hL]
    rfl
  · rw [parse_eq_runUpserts, hL2]
    rfl
